import Mathlib

/-!
Verification development for `src/roomscraper.py` (CSULBRoomFinder).

The Python module scrapes a class-schedule site, builds a per-room weekly
booking calendar, and answers "which rooms are open now, and until when".
The HTML fetching/traversal and file I/O are external collaborators; this
file embeds the algorithmic core verbatim:

  * `parse_times`   (roomscraper.py lines 65-103): time-range normalizer;
  * `parse_days`    (lines 105-107): day-code expander (a regex findall);
  * `parse_sections_table` record-formatting loop (lines 48-63);
  * `Room.is_open`  (lines 156-161);
  * the calendar upsert of `get_rooms` (lines 173-181);
  * snapshot/restore of `main` (lines 196-210);
  * the availability query of `main` (lines 221-248): open-room filter,
    per-room next-booking computation (`last_start`), and the best-room
    maximum.

Python exceptions are modelled by `Option`: a function that can raise
returns `none` where the Python code would raise (ValueError on a failed
unpack or int(), NameError on an unassigned local, ValueError of max() on
an empty sequence).
-/

namespace RoomScraper

/-- Decides whether `needle` occurs as a contiguous sublist of the second
argument; models Python's substring operator `in` on strings. -/
def listIsInfixOf (needle : List Char) : List Char → Bool
  | [] => needle.isEmpty
  | c :: t => needle.isPrefixOf (c :: t) || listIsInfixOf needle t

/-- Python `needle in hay` for strings: contiguous-substring containment. -/
def strContains (hay needle : String) : Bool :=
  listIsInfixOf needle.data hay.data

/-- ASCII lowercasing of one character, as Python `str.lower` acts on the
ASCII inputs of this program. -/
def charLower (c : Char) : Char :=
  if c.isUpper then Char.ofNat (c.toNat + 32) else c

/-- Python `s.lower()` (all inputs of this program are ASCII). -/
def pyLower (s : String) : String :=
  String.mk (s.data.map charLower)

/-- Splitting a character list at every occurrence of `sep`; models Python
`s.split(sep)` for a one-character separator (the only separators the
program uses: `-` and `:`). -/
def splitOnCharList (sep : Char) : List Char → List (List Char)
  | [] => [[]]
  | c :: rest =>
    match splitOnCharList sep rest with
    | [] => [[]]
    | g :: gs => if c = sep then [] :: g :: gs else (c :: g) :: gs

/-- Python `s.split(sep)` for a one-character separator. -/
def pySplit (s : String) (sep : Char) : List String :=
  (splitOnCharList sep s.data).map String.mk

/-- Fuel-driven body of `pyReplace`: replaces non-overlapping occurrences
of the nonempty pattern left to right, as Python `str.replace` does; the
fuel starts at the list's length, which bounds the recursion. -/
def replaceGo (fuel : Nat) (pat rep : List Char) (l : List Char) : List Char :=
  match fuel with
  | 0 => l
  | fuel + 1 =>
    match l with
    | [] => []
    | c :: rest =>
      if pat.isPrefixOf (c :: rest) then
        rep ++ replaceGo fuel pat rep (rest.drop (pat.length - 1))
      else c :: replaceGo fuel pat rep rest

/-- Python `s.replace(pat, rep)` for a nonempty pattern (the program only
replaces `am` and `pm`). -/
def pyReplace (s pat rep : String) : String :=
  String.mk (replaceGo s.data.length pat.data rep.data s.data)

/-- Python `s.strip()` as `int()` applies it: surrounding whitespace
removed. -/
def pyStrip (s : String) : String :=
  String.mk (((s.data.dropWhile Char.isWhitespace).reverse.dropWhile Char.isWhitespace).reverse)

/-- Value of a nonempty all-digit character list, `none` otherwise. -/
def digitsVal : List Char → Option Nat
  | [] => none
  | ds =>
    if ds.all Char.isDigit then
      some (ds.foldl (fun acc c => acc * 10 + (c.toNat - 48)) 0)
    else none

/-- Python `int(s)` on a string: strips surrounding whitespace, accepts an
optional sign followed by digits, raises (here `none`) otherwise.
(Python also accepts underscores between digits; no input of this program
contains them, so they are not modelled.) -/
def pyInt (s : String) : Option Int :=
  match (pyStrip s).data with
  | '-' :: ds => (digitsVal ds).map (fun n => -(n : Int))
  | '+' :: ds => (digitsVal ds).map (fun n => (n : Int))
  | ds => (digitsVal ds).map (fun n => (n : Int))

/-- Inner helper `time_to_24h` of `parse_times` (roomscraper.py lines
80-97): lowercases, detects `pm` by substring, strips the meridiem
markers, splits on `:` (minutes default to `00`), converts hour/minute
with `int()`, applies the 12-hour normalization, and returns
`hours * 100 + minutes`. `none` models a raised ValueError (failed
2-element unpack of `split(':')`, or non-numeric `int()`). -/
def time_to_24h (t0 : String) : Option Int :=
  let t1 := pyLower t0
  let is_pm := strContains t1 "pm"
  let t2 := pyReplace (pyReplace t1 "am" "") "pm" ""
  let hm : Option (String × String) :=
    if strContains t2 ":" then
      match pySplit t2 ':' with
      | [h, m] => some (h, m)
      | _ => none
    else some (t2, "00")
  match hm with
  | none => none
  | some (hs, ms) =>
    match pyInt hs, pyInt ms with
    | some h0, some m =>
      let h := if is_pm && decide (h0 < 12) then h0 + 12
               else if !is_pm && decide (h0 = 12) then 0
               else h0
      some (h * 100 + m)
    | _, _ => none

/-- Embeds `parse_times` (roomscraper.py lines 65-103). Returns `(0, 0)`
for the literal placeholders `TBA`/`NA`; otherwise splits once on `-`
(`none` models the ValueError of a failed 2-element unpack), propagates
the end side's meridiem marker onto a marker-free start side, and
converts both sides with `time_to_24h`. -/
def parse_times (time_str : String) : Option (Int × Int) :=
  if time_str = "TBA" || time_str = "NA" then some (0, 0)
  else
    match pySplit time_str '-' with
    | [start0, end0] =>
      let endL := pyLower end0
      let startL := pyLower start0
      let start1 :=
        if strContains endL "am" && !strContains startL "am" && !strContains startL "pm" then
          start0 ++ "am"
        else if strContains endL "pm" && !strContains startL "pm" && !strContains startL "am" then
          start0 ++ "pm"
        else start0
      match time_to_24h start1, time_to_24h end0 with
      | some s, some e => some (s, e)
      | _, _ => none
    | _ => none

/-- One step of the regex scan of `parse_days`: an uppercase letter opens a
new token, any other character extends the current token, and characters
before the first uppercase letter are dropped (the regex only matches runs
that start with an uppercase letter). Tokens accumulate in reverse. -/
def parse_days_step (acc : List String) (c : Char) : List String :=
  if c.isUpper then String.singleton c :: acc
  else
    match acc with
    | [] => []
    | t :: ts => t.push c :: ts

/-- Embeds `parse_days` (roomscraper.py lines 105-107):
`re.findall('[A-Z][^A-Z]*', days_str)`, i.e. every maximal run starting
with an uppercase letter and continuing through non-uppercase characters,
in order, with no validation of any kind. -/
def parse_days (days_str : String) : List String :=
  (days_str.data.foldl parse_days_step []).reverse

/-- One raw section record as handed to the record-formatting loop of
`parse_sections_table`: the three fields it reads from the scraped row
dictionary. -/
structure SectionRec where
  LOCATION : String
  DAYS : String
  TIME : String
deriving Repr, DecidableEq

/-- One formatted booking record as built by `parse_sections_table`
(roomscraper.py lines 54-59). -/
structure Formatted where
  Location : String
  Day : String
  Start : Int
  End : Int
deriving Repr, DecidableEq

/-- The loop body state of the record-formatting loop (roomscraper.py
lines 49-61): the Python local `formatted_section` is rebound on each
iteration of the inner `for day in parse_days(...)` loop, and the
`formatted.append(formatted_section)` sits OUTSIDE that inner loop, so
only the last day's record survives; when the day list is empty the
stale value from the previous section is appended (a NameError — here
`none` — if no section assigned it yet). -/
def parse_sections_go :
    List SectionRec → Option Formatted → List Formatted → Option (List Formatted)
  | [], _, acc => some acc.reverse
  | s :: rest, prev, acc =>
    match parse_times s.TIME with
    | none => none
    | some (st, en) =>
      let cur := (parse_days s.DAYS).foldl
        (fun _ day => some (Formatted.mk s.LOCATION day st en)) prev
      match cur with
      | none => none
      | some f => parse_sections_go rest cur (f :: acc)

/-- Embeds the record-formatting part of `parse_sections_table`
(roomscraper.py lines 48-63); the HTML cell extraction above it (lines
40-46) is the excluded scraping collaborator and is represented by the
already-extracted `SectionRec` fields. -/
def parse_sections_table (sections : List SectionRec) : Option (List Formatted) :=
  parse_sections_go sections none []

/-- Embeds class `Room` (roomscraper.py lines 146-154): a location and
its booked times, each a pair of a day string and a (start, end) pair. -/
structure Room where
  location : String
  booked_times : List (String × Int × Int)
deriving Repr, DecidableEq

/-- Embeds `Room.is_open` (roomscraper.py lines 156-161): the room is
open at `current_time` on `day` unless some booked time on that exact day
satisfies `start <= current_time <= end` (both ends inclusive); no booked
time, TBA `(0, 0)` included, is exempt from the test. -/
def Room.is_open (r : Room) (day : String) (current_time : Int) : Bool :=
  r.booked_times.all fun b =>
    !(decide (b.1 = day ∧ b.2.1 ≤ current_time ∧ current_time ≤ b.2.2))

/-- Embeds the calendar insertion of `get_rooms` (roomscraper.py lines
173-181): scan the room list for the first entry whose location equals
the section's location exactly (case-sensitive `==`) and append the
booked time to it; the `for`/`else` creates and appends a fresh `Room`
only when no entry matched. -/
def upsert (rooms : List Room) (loc : String) (b : String × Int × Int) : List Room :=
  match rooms with
  | [] => [Room.mk loc [b]]
  | r :: rs =>
    if r.location = loc then Room.mk r.location (r.booked_times ++ [b]) :: rs
    else r :: upsert rs loc b

/-- A whole scrape session: every formatted section inserted in order into
an initially empty calendar, as `get_rooms` does across courses. -/
def insertAll (inserts : List (String × String × Int × Int)) : List Room :=
  inserts.foldl (fun acc i => upsert acc i.1 i.2) []

/-- Embeds the snapshot serialization of `main` (roomscraper.py line
199): each room becomes the pair (location, booked_times) — the shape of
the JSON dictionary `{'location': ..., 'booked_times': ...}` written to
`rooms_data.json`. -/
def snapshot (rooms : List Room) : List (String × List (String × Int × Int)) :=
  rooms.map fun r => (r.location, r.booked_times)

/-- Embeds the restore path of `main` (roomscraper.py lines 204-210):
the in-memory list is cleared and rebuilt with `Room(location,
booked_times)` for each loaded dictionary, so the result depends only on
the snapshot, never on pre-existing state. -/
def restore (data : List (String × List (String × Int × Int))) : List Room :=
  data.map fun p => Room.mk p.1 p.2

/-- Embeds the filter test of `main` (roomscraper.py lines 224-228): with
no filter (Python `None`, and also the falsy empty string under
`if filter:`) every open room passes; otherwise the lowercased filter
must occur as a substring of the lowercased location. -/
def passesFilter (fil : Option String) (r : Room) : Bool :=
  match fil with
  | none => true
  | some f => if f = "" then true else strContains (pyLower r.location) (pyLower f)

/-- Embeds the open-room collection loop of `main` (roomscraper.py lines
221-228): the rooms that are open at (`day`, `now`) and pass the filter,
in calendar order. -/
def openRooms (rooms : List Room) (day : String) (now : Int) (fil : Option String) :
    List Room :=
  rooms.filter fun r => r.is_open day now && passesFilter fil r

/-- The inner loop of the next-booking computation (roomscraper.py lines
235-238), generalized over the running value `a` so the fold can be
reasoned about by induction. -/
def lastStartGo (current_time : Int) (a : Int) (l : List (String × Int × Int)) : Int :=
  l.foldl (fun acc b => if current_time < b.2.1 ∧ b.2.1 < acc then b.2.1 else acc) a

/-- Embeds the next-booking computation of `main` (roomscraper.py lines
234-238): starting from the sentinel `2400`, every booked time of the
room — on ANY day — with `start > current_time` lowers the running value
when it is strictly smaller. `2400` is printed as "the end of today". -/
def last_start (r : Room) (current_time : Int) : Int :=
  lastStartGo current_time 2400 r.booked_times

/-- Python dict assignment `d[k] = v` on an association list: overwrites
the value at an existing key in place, otherwise appends the new pair. -/
def dictUpsert (d : List (String × Int)) (k : String) (v : Int) : List (String × Int) :=
  if d.any (fun p => p.1 == k) then d.map fun p => if p.1 == k then (k, v) else p
  else d ++ [(k, v)]

/-- Embeds the `formatted_open_rooms` dictionary of `main` (roomscraper.py
lines 230-240): location ↦ `last_start`, built over the open rooms in
order. -/
def formattedOpenRooms (rooms : List Room) (day : String) (now : Int)
    (fil : Option String) : List (String × Int) :=
  (openRooms rooms day now fil).foldl (fun d r => dictUpsert d r.location (last_start r now)) []

/-- Embeds the best-room computation of `main` (roomscraper.py lines
244-246): `max()` over the dictionary's values — `none` models the
ValueError `max()` raises on an empty sequence — and the keys holding
that maximum, in order. -/
def queryBest (rooms : List Room) (day : String) (now : Int) (fil : Option String) :
    Option (Int × List String) :=
  match ((formattedOpenRooms rooms day now fil).map Prod.snd).max? with
  | none => none
  | some m =>
    some (m, ((formattedOpenRooms rooms day now fil).filter fun p => p.2 == m).map Prod.fst)

/-- Follows the spec's words, for comparison with `last_start` (spec
§4.5 step 3): "For each open room, `free_until` = the minimum `start`
among all bookings on `day` with `start > now`; if none exists,
`free_until = rest-of-day`" — `none` stands for rest-of-day. -/
def specFreeUntil (r : Room) (day : String) (now : Int) : Option Int :=
  ((r.booked_times.filter fun b => b.1 == day && decide (now < b.2.1)).map
    fun b => b.2.1).min?

/-- C1 (counterexample): the claim says `free_until` is the minimum start
among that room's bookings ON THE QUERIED WEEKDAY after `now`, and
rest-of-day when no such booking exists, with other weekdays not
affecting the result. For a room whose only booking is on Tuesday,
queried on Monday at 1200, the room is open and no Monday booking starts
after 1200 — the claimed value is rest-of-day — yet the code reports
1300: the Tuesday booking decided the answer. -/
theorem C1_free_until_other_day_cex :
    Room.is_open (Room.mk "HC-100" [("Tu", 1300, 1400)]) "M" 1200 = true ∧
    specFreeUntil (Room.mk "HC-100" [("Tu", 1300, 1400)]) "M" 1200 = none ∧
    last_start (Room.mk "HC-100" [("Tu", 1300, 1400)]) 1200 = 1300 ∧
    formattedOpenRooms [Room.mk "HC-100" [("Tu", 1300, 1400)]] "M" 1200 none =
      [("HC-100", 1300)] := by
  refine ⟨by decide, by decide, by decide, by decide⟩

/-- C2 (code bug, evaluated at the failing input): the record-formatting
loop of `parse_sections_table` appends outside the day loop, so a section
meeting on `MWF` yields a single record carrying only the last day `F`
instead of one record per day; a section whose day string expands to no
days re-appends the previous section's record, and raises a NameError
(modelled `none`) when it is the first section. -/
theorem C2_section_builder_last_day_only :
    parse_sections_table [SectionRec.mk "HC-100" "MWF" "9-10am"] =
      some [Formatted.mk "HC-100" "F" 900 1000] ∧
    parse_sections_table [SectionRec.mk "HC-100" "" "9-10am"] = none ∧
    parse_sections_table [SectionRec.mk "A" "M" "9-10am", SectionRec.mk "B" "" "1-2pm"] =
      some [Formatted.mk "A" "M" 900 1000, Formatted.mk "A" "M" 900 1000] := by
  refine ⟨by decide, by decide, by decide⟩

/-- C3 (counterexample): the claim says the best-set maximum is taken only
over numeric (non rest-of-day) `free_until` values, so a rest-of-day room
cannot win it. In the code a rest-of-day room carries the sentinel `2400`,
which participates in `max()` and beats every numeric value: with room A
free until 1300 and room B free for the rest of the day, the best set is
`["B"]` at the sentinel 2400, not `["A"]`. -/
theorem C3_rest_of_day_wins_cex :
    queryBest [Room.mk "A" [("M", 1300, 1400)], Room.mk "B" []] "M" 1200 none =
      some (2400, ["B"]) ∧
    last_start (Room.mk "B" []) 1200 = 2400 ∧
    specFreeUntil (Room.mk "B" []) "M" 1200 = none ∧
    last_start (Room.mk "A" [("M", 1300, 1400)]) 1200 = 1300 := by
  refine ⟨by decide, by decide, by decide, by decide⟩

/-- C4 (counterexample): the claim says a TBA sentinel booking `(0, 0)`
never makes a room closed, including at `now = 0`. `Room.is_open` exempts
no booking, and `0 <= 0 <= 0` holds, so a room whose Monday time is TBA
reads CLOSED on Monday at time 0. -/
theorem C4_tba_closes_at_midnight_cex :
    Room.is_open (Room.mk "HC-100" [("M", 0, 0)]) "M" 0 = false := by decide

/-- C5 (counterexample): the claim says
`normalize_time_range("11-1:30pm") == (1100, 1330)`. The code's meridiem
propagation copies the end side's `pm` onto the bare `11`, making it 11pm
= 2300: the function returns `(2300, 1330)`. -/
theorem C5_parse_times_1130_cex :
    parse_times "11-1:30pm" = some (2300, 1330) ∧
    parse_times "11-1:30pm" ≠ some (1100, 1330) := by
  refine ⟨by decide, by decide⟩

/-- C5 (amended): on the three quoted inputs `parse_times` returns
`(900, 1000)`, `(2300, 1330)` — the propagated `pm` turns the bare `11`
into 2300, not the claimed 1100 — and `(0, 0)`. -/
theorem C5_parse_times_values :
    parse_times "9-10am" = some (900, 1000) ∧
    parse_times "11-1:30pm" = some (2300, 1330) ∧
    parse_times "TBA" = some (0, 0) := by
  refine ⟨by decide, by decide, by decide⟩

/-- C6 (counterexample): the claim says an hour outside 1–12 makes the
Time Normalizer signal a ParseError rather than return a value. The code
validates nothing: `"13-14"` is converted without complaint to
`(1300, 1400)`. -/
theorem C6_hour_out_of_range_returns_cex :
    parse_times "13-14" = some (1300, 1400) := by decide

/-- C6 (amended): there is no ParseError anywhere in the code. An input
with no `-` separator or with non-numeric fields fails with a generic
uncaught ValueError (modelled `none`, with no field information), while an
hour outside 1–12 is accepted and converted to a normal return value. -/
theorem C6_parse_times_error_behavior :
    parse_times "900" = none ∧
    parse_times "ab-cd" = none ∧
    parse_times "13-14" = some (1300, 1400) := by
  refine ⟨by decide, by decide, by decide⟩

/-- C7 (counterexample): the claim says a token outside
{M, Tu, W, Th, F, Sa, Su} makes the Day Expander signal a ParseError
rather than return the token. `parse_days` is a bare regex findall with
no validation: on `"X"` it returns `["X"]`. -/
theorem C7_unrecognized_token_cex :
    parse_days "X" = ["X"] ∧
    "X" ∉ (["M", "Tu", "W", "Th", "F", "Sa", "Su"] : List String) := by
  refine ⟨by decide, by decide⟩

/-- C8: restoring the snapshot reproduces the calendar exactly: the
serialization keeps each room's location and booked-time list verbatim,
so the restored calendar has the same locations and gives the same answer
to every openness, free-until and best-room query. -/
theorem C8_snapshot_restore_observational (rooms : List Room) :
    (restore (snapshot rooms)).map Room.location = rooms.map Room.location ∧
    (∀ day now, (restore (snapshot rooms)).map (fun r => r.is_open day now) =
      rooms.map fun r => r.is_open day now) ∧
    (∀ now, (restore (snapshot rooms)).map (fun r => last_start r now) =
      rooms.map fun r => last_start r now) ∧
    ∀ day now fil, queryBest (restore (snapshot rooms)) day now fil =
      queryBest rooms day now fil := by
  have h : restore (snapshot rooms) = rooms := by
    induction rooms with
    | nil => rfl
    | cons r rs ih =>
      simp only [restore, snapshot, List.map_cons] at ih ⊢
      rw [ih]
  rw [h]
  exact ⟨rfl, fun _ _ => rfl, fun _ => rfl, fun _ _ _ => rfl⟩

/-- C10: whenever no room passes the open-and-filter test, the
`formatted_open_rooms` dictionary is empty and `max()` over its values
raises a ValueError (modelled `none`): the query produces no availability
output at all instead of an empty result. -/
theorem C10_no_open_rooms_raises (rooms : List Room) (day : String) (now : Int)
    (fil : Option String) (h : openRooms rooms day now fil = []) :
    queryBest rooms day now fil = none := by
  simp [queryBest, formattedOpenRooms, h]

/-- C10 (witness): a calendar holding one bookless room queried with the
filter "xyz", which its location does not contain: nothing passes the
filter and the query ends in the modelled ValueError. -/
theorem C10_no_open_rooms_raises_witness :
    queryBest [Room.mk "HC-100" []] "M" 1030 (some "xyz") = none :=
  C10_no_open_rooms_raises [Room.mk "HC-100" []] "M" 1030 (some "xyz") (by decide)

/-- The fold of `lastStartGo` computes, over any accumulator `a`, a lower
bound of every start after `now`, never exceeds `a`, and is either `a`
itself or a start of one of the bookings that lies after `now`. -/
theorem lastStartGo_spec (now : Int) (l : List (String × Int × Int)) :
    ∀ a : Int,
      (∀ b ∈ l, now < b.2.1 → lastStartGo now a l ≤ b.2.1) ∧
      lastStartGo now a l ≤ a ∧
      (lastStartGo now a l = a ∨
        ∃ b ∈ l, b.2.1 = lastStartGo now a l ∧ now < lastStartGo now a l) := by
  induction l with
  | nil =>
    intro a
    exact ⟨fun b hb => absurd hb (List.not_mem_nil b), le_refl a, Or.inl rfl⟩
  | cons hd tl ih =>
    intro a
    have hstep : lastStartGo now a (hd :: tl) =
        lastStartGo now (if now < hd.2.1 ∧ hd.2.1 < a then hd.2.1 else a) tl := rfl
    by_cases hcond : now < hd.2.1 ∧ hd.2.1 < a
    · have heq : lastStartGo now a (hd :: tl) = lastStartGo now hd.2.1 tl := by
        rw [hstep, if_pos hcond]
      obtain ⟨ih1, ih2, ih3⟩ := ih hd.2.1
      refine ⟨?_, ?_, ?_⟩
      · intro b hb hnb
        rcases List.mem_cons.mp hb with hb | hb
        · rw [heq, hb]; exact ih2
        · rw [heq]; exact ih1 b hb hnb
      · rw [heq]; exact le_of_lt (lt_of_le_of_lt ih2 hcond.2)
      · rw [heq]
        rcases ih3 with h | ⟨b, hb, h1, h2⟩
        · refine Or.inr ⟨hd, List.mem_cons_self hd tl, h.symm, ?_⟩
          rw [h]; exact hcond.1
        · exact Or.inr ⟨b, List.mem_cons_of_mem hd hb, h1, h2⟩
    · have heq : lastStartGo now a (hd :: tl) = lastStartGo now a tl := by
        rw [hstep, if_neg hcond]
      obtain ⟨ih1, ih2, ih3⟩ := ih a
      refine ⟨?_, ?_, ?_⟩
      · intro b hb hnb
        rcases List.mem_cons.mp hb with hb | hb
        · have ha : a ≤ b.2.1 := by
            by_contra hlt
            push_neg at hlt
            exact hcond ⟨by rw [← hb]; exact hnb, by rw [← hb]; exact hlt⟩
          rw [heq]; exact le_trans ih2 ha
        · rw [heq]; exact ih1 b hb hnb
      · rw [heq]; exact ih2
      · rw [heq]
        rcases ih3 with h | ⟨b, hb, h1, h2⟩
        · exact Or.inl h
        · exact Or.inr ⟨b, List.mem_cons_of_mem hd hb, h1, h2⟩

/-- C1 (amended): the reported free-until value `last_start` is the
minimum over the sentinel 2400 and the starts of ALL the room's
bookings, on every weekday, that lie strictly after `now` — it is a
lower bound of every such start, never exceeds 2400, and is either the
sentinel 2400 ("rest of day") or itself such a start. Bookings on other
weekdays do affect the result. -/
theorem C1_last_start_min_over_all_days (r : Room) (now : Int) :
    (∀ b ∈ r.booked_times, now < b.2.1 → last_start r now ≤ b.2.1) ∧
    last_start r now ≤ 2400 ∧
    (last_start r now = 2400 ∨
      ∃ b ∈ r.booked_times, b.2.1 = last_start r now ∧ now < last_start r now) :=
  lastStartGo_spec now r.booked_times 2400

/-- Folding `max` over a list of integers yields an upper bound that is
the accumulator or an element of the list. -/
theorem foldl_max_spec (l : List Int) :
    ∀ a : Int, a ≤ l.foldl max a ∧ (l.foldl max a = a ∨ l.foldl max a ∈ l) ∧
      ∀ x ∈ l, x ≤ l.foldl max a := by
  induction l with
  | nil =>
    intro a
    exact ⟨le_refl a, Or.inl rfl, fun x hx => absurd hx (List.not_mem_nil x)⟩
  | cons hd tl ih =>
    intro a
    have hstep : (hd :: tl).foldl max a = tl.foldl max (max a hd) := rfl
    obtain ⟨ih1, ih2, ih3⟩ := ih (max a hd)
    refine ⟨?_, ?_, ?_⟩
    · rw [hstep]; exact le_trans (le_max_left a hd) ih1
    · rw [hstep]
      rcases ih2 with h | h
      · rcases max_choice a hd with hm | hm
        · exact Or.inl (h.trans hm)
        · refine Or.inr ?_
          rw [h, hm]; exact List.mem_cons_self hd tl
      · exact Or.inr (List.mem_cons_of_mem hd h)
    · intro x hx
      rw [hstep]
      rcases List.mem_cons.mp hx with hx | hx
      · rw [hx]; exact le_trans (le_max_right a hd) ih1
      · exact ih3 x hx

/-- What `List.max?` returning `some m` means on integers: `m` is an
element of the list and an upper bound of it — the contract of Python's
`max()` on a nonempty sequence. -/
theorem max?_mem_le (l : List Int) (m : Int) (h : l.max? = some m) :
    m ∈ l ∧ ∀ x ∈ l, x ≤ m := by
  cases l with
  | nil => exact Option.noConfusion h
  | cons hd tl =>
    have h' : some (tl.foldl max hd) = some m := h
    have hm : tl.foldl max hd = m := Option.some.inj h'
    obtain ⟨h1, h2, h3⟩ := foldl_max_spec tl hd
    rw [hm] at h1 h2 h3
    refine ⟨?_, ?_⟩
    · rcases h2 with h' | h'
      · rw [h']; exact List.mem_cons_self hd tl
      · exact List.mem_cons_of_mem hd h'
    · intro x hx
      rcases List.mem_cons.mp hx with hx | hx
      · rw [hx]; exact h1
      · exact h3 x hx

/-- C3 (amended): the best set is the set of open, filter-passing rooms
whose `last_start` value is maximal, where a rest-of-day room carries the
numeric sentinel 2400 and participates in the maximum like any other
value — so a rest-of-day room always wins when one is present. -/
theorem C3_best_is_max_with_sentinel (rooms : List Room) (day : String) (now : Int)
    (fil : Option String) (m : Int) (best : List String)
    (h : queryBest rooms day now fil = some (m, best)) :
    (∀ p ∈ formattedOpenRooms rooms day now fil, p.2 ≤ m) ∧
    (∃ p ∈ formattedOpenRooms rooms day now fil, p.2 = m) ∧
    best = ((formattedOpenRooms rooms day now fil).filter fun p => p.2 == m).map
      Prod.fst := by
  unfold queryBest at h
  cases hmax : ((formattedOpenRooms rooms day now fil).map Prod.snd).max? with
  | none => rw [hmax] at h; exact Option.noConfusion h
  | some mv =>
    rw [hmax] at h
    have hpair := Option.some.inj h
    have hm : mv = m := congrArg Prod.fst hpair
    have hbest :
        ((formattedOpenRooms rooms day now fil).filter fun p => p.2 == mv).map Prod.fst =
          best := congrArg Prod.snd hpair
    rw [hm] at hmax hbest
    obtain ⟨hmem, hle⟩ := max?_mem_le _ m hmax
    refine ⟨?_, ?_, hbest.symm⟩
    · intro p hp
      exact hle p.2 (List.mem_map_of_mem Prod.snd hp)
    · rcases List.mem_map.mp hmem with ⟨p, hp, hpm⟩
      exact ⟨p, hp, hpm⟩

/-- C3 (witness): the amended best-room theorem applied to the concrete
two-room calendar of the counterexample, whose best set is the
rest-of-day room `B` at the sentinel 2400. -/
theorem C3_best_is_max_with_sentinel_witness :
    (∀ p ∈ formattedOpenRooms [Room.mk "A" [("M", 1300, 1400)], Room.mk "B" []]
        "M" 1200 none, p.2 ≤ 2400) ∧
    (∃ p ∈ formattedOpenRooms [Room.mk "A" [("M", 1300, 1400)], Room.mk "B" []]
        "M" 1200 none, p.2 = 2400) ∧
    ["B"] = ((formattedOpenRooms [Room.mk "A" [("M", 1300, 1400)], Room.mk "B" []]
        "M" 1200 none).filter fun p => p.2 == 2400).map Prod.fst :=
  C3_best_is_max_with_sentinel [Room.mk "A" [("M", 1300, 1400)], Room.mk "B" []]
    "M" 1200 none 2400 ["B"] (by decide)

/-- C4 (amended): the room is OPEN iff no booking — the TBA sentinel
`(0, 0)` included — on the queried exact day contains `now` in its closed
interval; consequently a TBA booking closes its room precisely at
`now = 0` on its recorded day, and the boundary case
`start = end = now` closes the room. -/
theorem C4_is_open_iff_inclusive_all_bookings (r : Room) (day : String) (now : Int) :
    r.is_open day now = true ↔
      ∀ b ∈ r.booked_times, b.1 = day → ¬(b.2.1 ≤ now ∧ now ≤ b.2.2) := by
  simp only [Room.is_open, List.all_eq_true, Bool.not_eq_true', decide_eq_false_iff_not]
  constructor
  · intro h b hb hd hc
    exact h b hb ⟨hd, hc⟩
  · intro h b hb hx
    exact h b hb hx.1 hx.2

/-- A string whose character list starts with an uppercase letter: the
shape of every token the day expander emits. -/
def startsUpper (t : String) : Prop :=
  ∃ c cs, t.data = c :: cs ∧ c.isUpper = true

/-- Every token accumulated by the day-expander fold starts with an
uppercase letter, provided the accumulator's tokens already do. -/
theorem parse_days_tokens_start_upper (l : List Char) :
    ∀ acc : List String, (∀ t ∈ acc, startsUpper t) →
      ∀ t ∈ l.foldl parse_days_step acc, startsUpper t := by
  induction l with
  | nil => intro acc h; exact h
  | cons c cs ih =>
    intro acc h
    refine ih (parse_days_step acc c) ?_
    intro t ht
    by_cases hc : c.isUpper
    · rw [show parse_days_step acc c = String.singleton c :: acc by
        simp [parse_days_step, hc]] at ht
      rcases List.mem_cons.mp ht with hh | hh
      · exact ⟨c, [], by rw [hh]; rfl, hc⟩
      · exact h t hh
    · cases acc with
      | nil =>
        rw [show parse_days_step [] c = [] by simp [parse_days_step, hc]] at ht
        exact absurd ht (List.not_mem_nil t)
      | cons t0 ts =>
        rw [show parse_days_step (t0 :: ts) c = t0.push c :: ts by
          simp [parse_days_step, hc]] at ht
        rcases List.mem_cons.mp ht with hh | hh
        · obtain ⟨c0, cs0, hdata, hu⟩ := h t0 (List.mem_cons_self t0 ts)
          refine ⟨c0, cs0 ++ [c], ?_, hu⟩
          rw [hh]
          show t0.data ++ [c] = c0 :: (cs0 ++ [c])
          rw [hdata]
          rfl
        · exact h t (List.mem_cons_of_mem t0 hh)

/-- C7 (amended): the day expander performs no validation at all: it
returns every maximal uppercase-initiated token of the input verbatim —
recognized weekday codes and unrecognized tokens such as "X" alike — and
every emitted token starts with an uppercase letter; nothing is ever
signalled. -/
theorem C7_parse_days_no_validation :
    parse_days "MWF" = ["M", "W", "F"] ∧
    parse_days "TuTh" = ["Tu", "Th"] ∧
    parse_days "X" = ["X"] ∧
    parse_days "" = [] ∧
    ∀ s : String, ∀ t ∈ parse_days s, startsUpper t := by
  refine ⟨by decide, by decide, by decide, by decide, ?_⟩
  intro s t ht
  simp only [parse_days] at ht
  rw [List.mem_reverse] at ht
  exact parse_days_tokens_start_upper s.data []
    (fun t' ht' => absurd ht' (List.not_mem_nil t')) t ht

/-- Appending a booking for an unmatched location creates one fresh entry
at the end, exactly as the `for`/`else` of `get_rooms` does. -/
theorem upsert_no_match (rooms : List Room) (loc : String) (b : String × Int × Int)
    (h : ∀ r ∈ rooms, r.location ≠ loc) :
    upsert rooms loc b = rooms ++ [Room.mk loc [b]] := by
  induction rooms with
  | nil => rfl
  | cons r rs ih =>
    have hr := h r (List.mem_cons_self r rs)
    simp only [upsert, if_neg hr, List.cons_append]
    rw [ih (fun x hx => h x (List.mem_cons_of_mem r hx))]

/-- Inserting at a matched location appends the booking to the FIRST
matching entry, leaving everything else untouched. -/
theorem upsert_first_match (pre post : List Room) (r0 : Room) (loc : String)
    (b : String × Int × Int) (hpre : ∀ r ∈ pre, r.location ≠ loc)
    (h0 : r0.location = loc) :
    upsert (pre ++ r0 :: post) loc b =
      pre ++ Room.mk loc (r0.booked_times ++ [b]) :: post := by
  induction pre with
  | nil =>
    simp only [List.nil_append, upsert, if_pos h0]
    rw [h0]
  | cons p ps ih =>
    have hp := hpre p (List.mem_cons_self p ps)
    have h1 : upsert ((p :: ps) ++ r0 :: post) loc b =
        p :: upsert (ps ++ r0 :: post) loc b := by
      show upsert (p :: (ps ++ r0 :: post)) loc b = _
      simp only [upsert, if_neg hp]
    rw [h1, ih (fun r hr => hpre r (List.mem_cons_of_mem p hr)), List.cons_append]

/-- The location list after an upsert: unchanged when the location was
already present, extended by exactly that location otherwise. -/
theorem upsert_locations (rooms : List Room) (loc : String) (b : String × Int × Int) :
    (upsert rooms loc b).map Room.location =
      if loc ∈ rooms.map Room.location then rooms.map Room.location
      else rooms.map Room.location ++ [loc] := by
  induction rooms with
  | nil => simp [upsert]
  | cons r rs ih =>
    by_cases h : r.location = loc
    · have h1 : upsert (r :: rs) loc b = Room.mk r.location (r.booked_times ++ [b]) :: rs := by
        simp [upsert, h]
      have hmem : loc ∈ (r :: rs).map Room.location := by
        simp only [List.map_cons, List.mem_cons]
        exact Or.inl h.symm
      rw [h1, if_pos hmem]
      simp
    · have h1 : upsert (r :: rs) loc b = r :: upsert rs loc b := by
        simp [upsert, h]
      have hne : ¬ loc = r.location := fun hh => h hh.symm
      rw [h1]
      simp only [List.map_cons, List.mem_cons]
      rw [ih]
      by_cases h2 : loc ∈ rs.map Room.location
      · rw [if_pos h2, if_pos (Or.inr h2)]
      · rw [if_neg h2, if_neg ?_]
        · rfl
        · rintro (hh | hh)
          · exact hne hh
          · exact h2 hh

/-- One upsert keeps the location list duplicate-free. -/
theorem upsert_nodup (rooms : List Room) (loc : String) (b : String × Int × Int)
    (h : (rooms.map Room.location).Nodup) :
    ((upsert rooms loc b).map Room.location).Nodup := by
  rw [upsert_locations]
  by_cases h2 : loc ∈ rooms.map Room.location
  · rw [if_pos h2]; exact h
  · rw [if_neg h2]
    rw [List.nodup_append]
    refine ⟨h, List.nodup_singleton loc, ?_⟩
    intro x hx hx'
    have hxl : x = loc := by simpa using hx'
    exact h2 (hxl ▸ hx)

/-- Any sequence of upserts starting from a duplicate-free calendar keeps
the location list duplicate-free. -/
theorem insertAll_nodup_aux (inserts : List (String × String × Int × Int)) :
    ∀ acc : List Room, (acc.map Room.location).Nodup →
      ((inserts.foldl (fun acc i => upsert acc i.1 i.2) acc).map Room.location).Nodup := by
  induction inserts with
  | nil => intro acc h; exact h
  | cons i is ih =>
    intro acc h
    exact ih (upsert acc i.1 i.2) (upsert_nodup acc i.1 i.2 h)

/-- C9: after every sequence of booking insertions into an initially empty
calendar, locations are pairwise distinct (at most one entry per exact,
case-sensitive location string); a single upsert preserves that
invariant, creates a fresh entry exactly when no entry matches, and on a
match appends the booking to the first matching entry, leaving the rest
of the calendar untouched. -/
theorem C9_calendar_unique_locations (rooms pre post : List Room) (r0 : Room)
    (loc : String) (b : String × Int × Int)
    (inserts : List (String × String × Int × Int)) :
    ((insertAll inserts).map Room.location).Nodup ∧
    ((rooms.map Room.location).Nodup → ((upsert rooms loc b).map Room.location).Nodup) ∧
    ((∀ r ∈ rooms, r.location ≠ loc) → upsert rooms loc b = rooms ++ [Room.mk loc [b]]) ∧
    ((∀ r ∈ pre, r.location ≠ loc) → r0.location = loc →
      upsert (pre ++ r0 :: post) loc b =
        pre ++ Room.mk loc (r0.booked_times ++ [b]) :: post) :=
  ⟨insertAll_nodup_aux inserts [] (by simp),
   upsert_nodup rooms loc b,
   upsert_no_match rooms loc b,
   upsert_first_match pre post r0 loc b⟩

end RoomScraper
